import Mathlib

/-!
Verification of the business-card manager backend (src/backend/main.py).

The development shallowly embeds the pure content of the backend into Lean:

* text is modelled as `List Char` (Python `str`), bytes as `List Nat`;
* Python dictionaries of strings are modelled as association lists;
* raised `HTTPException`s are modelled with `Except HTTPError`;
* the two external services (chat completion, image generation) and the
  PIL image decoder are inputs of the embedded functions: their results
  are passed in as parameters, since the embedding concerns only what the
  backend itself does with them.

Definitions follow the source function by function; each definition notes
the python function it embeds.
-/

namespace CardBackend

/-! ### Basic Python string helpers -/

/-- The characters stripped by Python `str.strip()` with no argument
(ASCII whitespace; the unicode cases do not occur in this development). -/
def isPySpace (c : Char) : Bool :=
  c = ' ' || c = '\t' || c = '\n' || c = '\r' || c = '\x0b' || c = '\x0c'

/-- Left part of Python `str.strip()`. -/
def pyStripLeft (l : List Char) : List Char := l.dropWhile isPySpace

/-- Right part of Python `str.strip()`. -/
def pyStripRight (l : List Char) : List Char :=
  (l.reverse.dropWhile isPySpace).reverse

/-- Python `str.strip()`. -/
def pyStrip (l : List Char) : List Char := pyStripRight (pyStripLeft l)

/-- The code-fence separator `"```"` used by `parse_json_blob`. -/
def fenceSep : List Char := "```".data

/-- Python `text.split("```")`: splits at each non-overlapping occurrence
of the separator, scanning left to right. -/
def splitFence (l : List Char) : List (List Char) :=
  match l with
  | [] => [[]]
  | c :: rest =>
    if fenceSep.isPrefixOf (c :: rest) then
      [] :: splitFence (rest.drop 2)
    else
      match splitFence rest with
      | h :: t => (c :: h) :: t
      | [] => [[c]]
termination_by l.length
decreasing_by
  · simp only [List.length_cons, List.length_drop]; omega
  · simp only [List.length_cons]; omega

/-- Python `"```" in text`. -/
def containsFence : List Char → Bool
  | [] => false
  | c :: rest => fenceSep.isPrefixOf (c :: rest) || containsFence rest

/-- Python `text[start:end]` slicing step of `parse_json_blob`: the
substring from the first `'{'` to the last `'}'` inclusive; if either
brace is missing the `ValueError` is swallowed and the text unchanged. -/
def braceSlice (l : List Char) : List Char :=
  match l.findIdx? (fun c => c == '{'), l.reverse.findIdx? (fun c => c == '}') with
  | some i, some rj => (l.take (l.length - rj)).drop i
  | _, _ => l

/-! ### A model of `json.loads` restricted to flat string objects

The backend requests `response_format json_object` and reads the result
as a string-to-string mapping, so the JSON fragment that matters is a
single object whose keys and values are strings.  `jsonLoads` below
parses exactly that fragment (strings without escape sequences, objects
with string members, surrounding whitespace); every other input is
rejected, as `json.loads` rejects or reinterprets inputs outside the
fragment. -/

/-- Scan a JSON string body up to the closing quote. -/
def scanStr : List Char → Option (List Char × List Char)
  | [] => none
  | c :: rest =>
    if c = '"' then some ([], rest)
    else (scanStr rest).map (fun p => (c :: p.1, p.2))

/-- Parse a JSON string literal. -/
def parseStr (l : List Char) : Option (String × List Char) :=
  match l with
  | c :: rest =>
    if c = '"' then (scanStr rest).map (fun p => (String.mk p.1, p.2))
    else none
  | [] => none

/-- Skip JSON whitespace. -/
def skipWs (l : List Char) : List Char := l.dropWhile isPySpace

/-- Parse the comma-separated members of a JSON object (at least one). -/
def parseMembers : Nat → List Char → Option (List (String × String) × List Char)
  | 0, _ => none
  | fuel + 1, l =>
    match parseStr (skipWs l) with
    | none => none
    | some (k, l1) =>
      match skipWs l1 with
      | c :: l2 =>
        if c = ':' then
          match parseStr (skipWs l2) with
          | none => none
          | some (v, l3) =>
            match skipWs l3 with
            | c2 :: l4 =>
              if c2 = ',' then
                match parseMembers fuel l4 with
                | some (ms, l5) => some ((k, v) :: ms, l5)
                | none => none
              else some ([(k, v)], c2 :: l4)
            | [] => some ([(k, v)], [])
        else none
      | [] => none

/-- The model of `json.loads` on the flat-object fragment. -/
def jsonLoads (l : List Char) : Option (List (String × String)) :=
  match skipWs l with
  | c :: r =>
    if c = '{' then
      match skipWs r with
      | c2 :: r2 =>
        if c2 = '}' then (if skipWs r2 = [] then some [] else none)
        else
          match parseMembers ((c2 :: r2).length + 1) (c2 :: r2) with
          | some (ms, rest) =>
            match rest with
            | c3 :: r3 =>
              if c3 = '}' then (if skipWs r3 = [] then some ms else none) else none
            | [] => none
          | none => none
      | [] => none
    else none
  | [] => none

/-- The canonical rendering of a flat JSON object, as `json.dumps`
renders it (separators `", "` and `": "`). -/
def serializeStr (s : String) : List Char := '"' :: s.data ++ ['"']

/-- Members part of `serializeObj`. -/
def serializeMembers : List (String × String) → List Char
  | [] => []
  | (k, v) :: rest =>
    serializeStr k ++ ':' :: ' ' :: serializeStr v ++
      (if rest = [] then [] else ',' :: ' ' :: serializeMembers rest)

/-- Canonical rendering of a flat JSON object. -/
def serializeObj (o : List (String × String)) : List Char :=
  '{' :: serializeMembers o ++ ['}']

/-! ### `parse_json_blob` (main.py lines 102-118) -/

/-- Embeds `parse_json_blob`: strip, de-fence, drop a leading `json`
tag, slice from the first `'{'` to the last `'}'`, and parse. -/
def parse_json_blob (text : List Char) : Option (List (String × String)) :=
  let cleaned := pyStrip text
  let cleaned :=
    if containsFence cleaned then
      let parts := splitFence cleaned
      if parts.length ≥ 3 then parts.getD 1 [] else parts.flatten
    else cleaned
  let cleaned := if "json".data.isPrefixOf cleaned then cleaned.drop 4 else cleaned
  jsonLoads (braceSlice cleaned)

/-! ### Helper lemmas for the extraction parser -/

theorem fenceSep_eq : fenceSep = ['`', '`', '`'] := rfl

theorem dropWhile_append_of_head (p : α → Bool) (a : List α) (c : α) (b : List α)
    (hc : p c = false) :
    List.dropWhile p (a ++ c :: b) = List.dropWhile p a ++ c :: b := by
  induction a with
  | nil => simp [List.dropWhile_cons, hc]
  | cons x xs ih =>
    by_cases hx : p x = true
    · simpa [List.dropWhile_cons, hx] using ih
    · simp [List.dropWhile_cons, Bool.eq_false_iff.mpr hx]

theorem pyStripLeft_append_of_head (a : List Char) (c : Char) (b : List Char)
    (hc : isPySpace c = false) :
    pyStripLeft (a ++ c :: b) = pyStripLeft a ++ c :: b :=
  dropWhile_append_of_head isPySpace a c b hc

theorem pyStripRight_append_of_last (a : List Char) (c : Char) (b : List Char)
    (hc : isPySpace c = false) :
    pyStripRight ((a ++ [c]) ++ b) = (a ++ [c]) ++ pyStripRight b := by
  unfold pyStripRight
  have h := dropWhile_append_of_head isPySpace b.reverse c a.reverse hc
  simp only [List.reverse_append, List.reverse_cons, List.reverse_nil, List.nil_append,
    List.singleton_append, List.append_assoc] at *
  rw [h]
  simp

/-- Stripping a text whose middle block starts and ends with a
non-whitespace character only strips the two outer pieces. -/
theorem pyStrip_sandwich (pre mm post : List Char) (c1 c2 : Char)
    (h1 : isPySpace c1 = false) (h2 : isPySpace c2 = false) :
    pyStrip (pre ++ (c1 :: (mm ++ [c2])) ++ post) =
      pyStripLeft pre ++ (c1 :: (mm ++ [c2])) ++ pyStripRight post := by
  unfold pyStrip
  rw [show pre ++ (c1 :: (mm ++ [c2])) ++ post = pre ++ c1 :: (mm ++ [c2] ++ post) by simp,
    pyStripLeft_append_of_head pre c1 _ h1]
  rw [show pyStripLeft pre ++ c1 :: (mm ++ [c2] ++ post)
      = ((pyStripLeft pre ++ c1 :: mm) ++ [c2]) ++ post by simp,
    pyStripRight_append_of_last _ c2 post h2]
  simp

theorem mem_pyStripLeft {c : Char} {l : List Char} (h : c ∈ pyStripLeft l) : c ∈ l :=
  (List.dropWhile_sublist isPySpace).subset h

theorem mem_pyStripRight {c : Char} {l : List Char} (h : c ∈ pyStripRight l) : c ∈ l := by
  unfold pyStripRight at h
  rw [List.mem_reverse] at h
  exact List.mem_reverse.mp ((List.dropWhile_sublist isPySpace).subset h)

/-! Fence splitting lemmas -/

theorem splitFence_nil : splitFence [] = [[]] := by
  unfold splitFence; rfl

theorem splitFence_fence (rest : List Char) :
    splitFence ('`' :: '`' :: '`' :: rest) = [] :: splitFence rest := by
  conv_lhs => rw [splitFence.eq_def]
  simp [fenceSep_eq, List.isPrefixOf]

theorem isPrefixOf_fence_of_ne {c : Char} (rest : List Char) (hc : c ≠ '`') :
    fenceSep.isPrefixOf (c :: rest) = false := by
  simp [fenceSep_eq, List.isPrefixOf, Ne.symm hc]

theorem splitFence_cons_ne {c : Char} (rest : List Char) (hc : c ≠ '`') :
    splitFence (c :: rest) =
      match splitFence rest with
      | h :: t => (c :: h) :: t
      | [] => [[c]] := by
  conv_lhs => rw [splitFence.eq_def]
  simp [isPrefixOf_fence_of_ne rest hc]

theorem splitFence_tickfree (a : List Char) (ha : ∀ c ∈ a, c ≠ '`') :
    splitFence a = [a] := by
  induction a with
  | nil => exact splitFence_nil
  | cons c rest ih =>
    rw [splitFence_cons_ne rest (ha c (by simp))]
    rw [ih (fun x hx => ha x (by simp [hx]))]

theorem splitFence_append_fence (a rest : List Char) (ha : ∀ c ∈ a, c ≠ '`') :
    splitFence (a ++ fenceSep ++ rest) = a :: splitFence rest := by
  induction a with
  | nil => simpa [fenceSep_eq] using splitFence_fence rest
  | cons c a2 ih =>
    have hc : c ≠ '`' := ha c (by simp)
    rw [show (c :: a2) ++ fenceSep ++ rest = c :: (a2 ++ fenceSep ++ rest) by simp,
      splitFence_cons_ne _ hc, ih (fun x hx => ha x (by simp [hx]))]

theorem containsFence_append (a b : List Char) :
    containsFence (a ++ fenceSep ++ b) = true := by
  induction a with
  | nil =>
    rw [show ([] : List Char) ++ fenceSep ++ b = '`' :: '`' :: '`' :: b by simp [fenceSep_eq]]
    unfold containsFence
    simp [fenceSep_eq, List.isPrefixOf]
  | cons c a2 ih =>
    have step : containsFence (c :: (a2 ++ fenceSep ++ b)) =
        (fenceSep.isPrefixOf (c :: (a2 ++ fenceSep ++ b)) ||
          containsFence (a2 ++ fenceSep ++ b)) := rfl
    rw [show (c :: a2) ++ fenceSep ++ b = c :: (a2 ++ fenceSep ++ b) by simp, step, ih,
      Bool.or_true]

theorem containsFence_eq_false (l : List Char) (hl : ∀ c ∈ l, c ≠ '`') :
    containsFence l = false := by
  induction l with
  | nil => rfl
  | cons c rest ih =>
    have step : containsFence (c :: rest) =
        (fenceSep.isPrefixOf (c :: rest) || containsFence rest) := rfl
    rw [step, isPrefixOf_fence_of_ne rest (hl c (by simp)),
      ih (fun x hx => hl x (by simp [hx]))]
    rfl

/-! Brace slicing -/

theorem findIdx?_eq_none_of_all {p : α → Bool} {l : List α}
    (h : ∀ x ∈ l, p x = false) : List.findIdx? p l = none :=
  List.findIdx?_eq_none_iff.mpr h

theorem braceSlice_eq (l : List Char) (i rj : Nat)
    (h1 : List.findIdx? (fun c => c == '{') l = some i)
    (h2 : List.findIdx? (fun c => c == '}') l.reverse = some rj) :
    braceSlice l = (l.take (l.length - rj)).drop i := by
  unfold braceSlice
  rw [h1, h2]

/-- The brace slice of a text whose first `'{'` opens a block ending in
the last `'}'` is exactly that block. -/
theorem braceSlice_sandwich (a ms b : List Char)
    (ha : '{' ∉ a) (hb : '}' ∉ b) :
    braceSlice (a ++ ('{' :: ms ++ ['}']) ++ b) = '{' :: ms ++ ['}'] := by
  have hA : ∀ x ∈ a, (x == '{') = false := by
    intro x hx
    simp only [beq_eq_false_iff_ne, ne_eq]
    exact fun hEq => ha (hEq ▸ hx)
  have hB : ∀ x ∈ b.reverse, (x == '}') = false := by
    intro x hx
    simp only [beq_eq_false_iff_ne, ne_eq]
    exact fun hEq => hb (hEq ▸ List.mem_reverse.mp hx)
  have hfwd : List.findIdx? (fun c => c == '{') (a ++ ('{' :: ms ++ ['}']) ++ b)
      = some a.length := by
    rw [List.append_assoc, List.findIdx?_append, findIdx?_eq_none_of_all hA]
    simp [List.findIdx?_cons]
  have hrevEq : (a ++ ('{' :: ms ++ ['}']) ++ b).reverse
      = b.reverse ++ ('}' :: (ms.reverse ++ ['{'] ++ a.reverse)) := by
    simp
  have hrev : List.findIdx? (fun c => c == '}') (a ++ ('{' :: ms ++ ['}']) ++ b).reverse
      = some b.length := by
    rw [hrevEq, List.findIdx?_append, findIdx?_eq_none_of_all hB]
    simp [List.findIdx?_cons]
  have hlen : (a ++ ('{' :: ms ++ ['}']) ++ b).length - b.length
      = (a ++ ('{' :: ms ++ ['}'])).length := by
    simp only [List.length_append, List.length_cons]
    omega
  rw [braceSlice_eq _ _ _ hfwd hrev, hlen, List.take_left' rfl, List.drop_left' rfl]

/-! JSON parser round-trip lemmas -/

theorem scanStr_round (s rest : List Char) (hs : '"' ∉ s) :
    scanStr (s ++ '"' :: rest) = some (s, rest) := by
  induction s with
  | nil => simp [scanStr]
  | cons c s2 ih =>
    have hc : c ≠ '"' := fun h => hs (by simp [h])
    have ih2 := ih (fun h => hs (by simp [h]))
    simp only [List.cons_append, scanStr, if_neg hc, List.append_eq]
    rw [ih2]
    rfl

theorem parseStr_round (s rest : List Char) (hs : '"' ∉ s) :
    parseStr ('"' :: (s ++ '"' :: rest)) = some (String.mk s, rest) := by
  show (if ('"' : Char) = '"' then
      (scanStr (s ++ '"' :: rest)).map (fun p => (String.mk p.1, p.2)) else none)
    = some (String.mk s, rest)
  rw [if_pos rfl, scanStr_round s rest hs]
  rfl

theorem skipWs_cons_not {c : Char} (l : List Char) (hc : isPySpace c = false) :
    skipWs (c :: l) = c :: l := by
  simp [skipWs, List.dropWhile_cons, hc]

theorem skipWs_cons_ws {c : Char} (l : List Char) (hc : isPySpace c = true) :
    skipWs (c :: l) = skipWs l := by
  simp [skipWs, List.dropWhile_cons, hc]

theorem parseMembers_ws {c : Char} (fuel : Nat) (l : List Char) (hc : isPySpace c = true) :
    parseMembers fuel (c :: l) = parseMembers fuel l := by
  cases fuel with
  | zero => rfl
  | succ f =>
    show (match parseStr (skipWs (c :: l)) with
      | none => none
      | some (k, l1) => _) = _
    rw [skipWs_cons_ws l hc]
    rfl

theorem parseMembers_succ (f : Nat) (l : List Char) :
    parseMembers (f + 1) l =
      match parseStr (skipWs l) with
      | none => none
      | some (k, l1) =>
        match skipWs l1 with
        | c :: l2 =>
          if c = ':' then
            match parseStr (skipWs l2) with
            | none => none
            | some (v, l3) =>
              match skipWs l3 with
              | c2 :: l4 =>
                if c2 = ',' then
                  match parseMembers f l4 with
                  | some (ms, l5) => some ((k, v) :: ms, l5)
                  | none => none
                else some ([(k, v)], c2 :: l4)
              | [] => some ([(k, v)], [])
          else none
        | [] => none := rfl

theorem length_serializeMembers :
    ∀ ms : List (String × String), ms.length ≤ (serializeMembers ms).length
  | [] => by simp [serializeMembers]
  | (k, v) :: rest => by
    have ih := length_serializeMembers rest
    by_cases h : rest = []
    · subst h; simp [serializeMembers, serializeStr]
    · rw [show serializeMembers ((k, v) :: rest)
          = serializeStr k ++ ':' :: ' ' :: (serializeStr v ++ (',' :: ' ' :: serializeMembers rest))
          from by simp [serializeMembers, h]]
      simp only [serializeStr, List.length_append, List.length_cons]
      omega

theorem string_mk_data (s : String) : String.mk s.data = s := rfl

theorem parseMembers_round :
    ∀ (ms : List (String × String)), ms ≠ [] →
      (∀ p ∈ ms, '"' ∉ (p.1 : String).data ∧ '"' ∉ p.2.data) →
      ∀ fuel, ms.length ≤ fuel →
      parseMembers fuel (serializeMembers ms ++ ['}']) = some (ms, ['}'])
  | [], hne, _, _, _ => absurd rfl hne
  | (k, v) :: rest, _, hok, fuel, hf => by
    obtain ⟨f, rfl⟩ : ∃ f, fuel = f + 1 := by
      cases fuel with
      | zero => simp at hf
      | succ f => exact ⟨f, rfl⟩
    have hk : '"' ∉ k.data := (hok (k, v) (by simp)).1
    have hv : '"' ∉ v.data := (hok (k, v) (by simp)).2
    have hL : serializeMembers ((k, v) :: rest) ++ ['}']
        = '"' :: (k.data ++ '"' :: ':' :: ' ' :: ('"' :: (v.data ++ '"' ::
            ((if rest = [] then [] else ',' :: ' ' :: serializeMembers rest) ++ ['}'])))) := by
      simp [serializeMembers, serializeStr]
    rw [hL, parseMembers_succ, skipWs_cons_not _ (by rfl),
      parseStr_round k.data _ hk]
    dsimp only
    rw [skipWs_cons_not _ (by rfl)]
    dsimp only
    rw [if_pos rfl, skipWs_cons_ws _ (by rfl),
      skipWs_cons_not _ (by rfl), parseStr_round v.data _ hv]
    dsimp only
    cases rest with
    | nil =>
      rw [if_pos rfl]
      simp only [List.nil_append]
      rw [skipWs_cons_not _ (by rfl)]
      dsimp only
      rw [if_neg (by decide), string_mk_data, string_mk_data]
    | cons q rest2 =>
      rw [if_neg (List.cons_ne_nil q rest2)]
      simp only [List.cons_append]
      rw [skipWs_cons_not _ (by rfl)]
      dsimp only
      rw [if_pos rfl, parseMembers_ws f _ (by rfl),
        parseMembers_round (q :: rest2) (List.cons_ne_nil q rest2)
          (fun p hp => hok p (by simp [hp])) f (by simpa using hf)]

theorem jsonLoads_round (o : List (String × String))
    (hok : ∀ p ∈ o, '"' ∉ (p.1 : String).data ∧ '"' ∉ p.2.data) :
    jsonLoads (serializeObj o) = some o := by
  cases o with
  | nil => rfl
  | cons p rest =>
    obtain ⟨k, v⟩ := p
    have hmem : serializeMembers ((k, v) :: rest)
        = '"' :: (k.data ++ '"' :: ':' :: ' ' :: ('"' :: (v.data ++ '"' ::
            (if rest = [] then [] else ',' :: ' ' :: serializeMembers rest)))) := by
      simp [serializeMembers, serializeStr]
    have hL : serializeObj ((k, v) :: rest)
        = '{' :: serializeMembers ((k, v) :: rest) ++ ['}'] := rfl
    rw [hL]
    show jsonLoads ('{' :: (serializeMembers ((k, v) :: rest) ++ ['}'])) = _
    unfold jsonLoads
    rw [skipWs_cons_not _ (by rfl)]
    dsimp only
    rw [if_pos rfl]
    have hcons : serializeMembers ((k, v) :: rest) ++ ['}']
        = '"' :: ((k.data ++ '"' :: ':' :: ' ' :: ('"' :: (v.data ++ '"' ::
            (if rest = [] then [] else ',' :: ' ' :: serializeMembers rest)))) ++ ['}']) := by
      rw [hmem]; simp
    rw [hcons, skipWs_cons_not _ (by rfl)]
    dsimp only
    rw [if_neg (by decide)]
    rw [← hcons]
    have hfuel : ((k, v) :: rest).length ≤ (serializeMembers ((k, v) :: rest) ++ ['}']).length + 1 := by
      have h := length_serializeMembers ((k, v) :: rest)
      simp only [List.length_append, List.length_cons, List.length_nil] at h ⊢
      omega
    rw [parseMembers_round ((k, v) :: rest) (List.cons_ne_nil _ _) hok _ hfuel]
    dsimp only
    rw [if_pos rfl, if_pos (show skipWs [] = [] from rfl)]

/-- Keys and values that survive the model faithfully: no quote (ends the
string early), no backslash (`json.loads` would unescape), no backtick
(would interfere with the fence split). -/
def goodJsonStr (s : String) : Prop :=
  '"' ∉ s.data ∧ '\\' ∉ s.data ∧ '`' ∉ s.data

instance (s : String) : Decidable (goodJsonStr s) :=
  inferInstanceAs (Decidable ('"' ∉ s.data ∧ '\\' ∉ s.data ∧ '`' ∉ s.data))

theorem tick_not_mem_serializeMembers :
    ∀ (o : List (String × String)), (∀ p ∈ o, goodJsonStr p.1 ∧ goodJsonStr p.2) →
      '`' ∉ serializeMembers o
  | [], _ => by simp [serializeMembers]
  | (k, v) :: rest, hok => by
    have hk := (hok (k, v) (by simp)).1.2.2
    have hv := (hok (k, v) (by simp)).2.2.2
    have ih := tick_not_mem_serializeMembers rest (fun q hq => hok q (by simp [hq]))
    intro h
    by_cases hr : rest = []
    · subst hr
      simp [serializeMembers, serializeStr, hk, hv] at h
    · simp [serializeMembers, serializeStr, hr, hk, hv, ih] at h

theorem tick_not_mem_serializeObj (o : List (String × String))
    (hok : ∀ p ∈ o, goodJsonStr p.1 ∧ goodJsonStr p.2) :
    '`' ∉ serializeObj o := by
  intro h
  have hm := tick_not_mem_serializeMembers o hok
  simp [serializeObj, hm] at h

/-- What `parse_json_blob` does on a text with exactly one fenced block:
the prose outside the fences is dropped and the fenced block is
processed alone. -/
theorem parse_json_blob_fenced (pre mid post : List Char)
    (hpre : ∀ c ∈ pre, c ≠ '`') (hmid : ∀ c ∈ mid, c ≠ '`')
    (hpost : ∀ c ∈ post, c ≠ '`') :
    parse_json_blob (pre ++ fenceSep ++ mid ++ fenceSep ++ post)
      = jsonLoads (braceSlice
          (if "json".data.isPrefixOf mid then mid.drop 4 else mid)) := by
  have hpre2 : ∀ c ∈ pyStripLeft pre, c ≠ '`' := fun c hc => hpre c (mem_pyStripLeft hc)
  have hpost2 : ∀ c ∈ pyStripRight post, c ≠ '`' := fun c hc => hpost c (mem_pyStripRight hc)
  have hshape : pre ++ fenceSep ++ mid ++ fenceSep ++ post
      = pre ++ ('`' :: (('`' :: '`' :: mid ++ ['`', '`']) ++ ['`'])) ++ post := by
    simp [fenceSep_eq]
  have hstrip : pyStrip (pre ++ fenceSep ++ mid ++ fenceSep ++ post)
      = pyStripLeft pre ++ fenceSep ++ mid ++ fenceSep ++ pyStripRight post := by
    rw [hshape, pyStrip_sandwich pre _ post '`' '`' rfl rfl]
    simp [fenceSep_eq]
  have hcont : containsFence
      (pyStripLeft pre ++ fenceSep ++ mid ++ fenceSep ++ pyStripRight post) = true := by
    rw [show pyStripLeft pre ++ fenceSep ++ mid ++ fenceSep ++ pyStripRight post
        = pyStripLeft pre ++ fenceSep ++ (mid ++ fenceSep ++ pyStripRight post) by simp]
    exact containsFence_append _ _
  have hsplit : splitFence
      (pyStripLeft pre ++ fenceSep ++ mid ++ fenceSep ++ pyStripRight post)
      = [pyStripLeft pre, mid, pyStripRight post] := by
    rw [show pyStripLeft pre ++ fenceSep ++ mid ++ fenceSep ++ pyStripRight post
        = pyStripLeft pre ++ fenceSep ++ (mid ++ fenceSep ++ pyStripRight post) by simp,
      splitFence_append_fence _ _ hpre2,
      splitFence_append_fence _ _ hmid,
      splitFence_tickfree _ hpost2]
  simp only [parse_json_blob]
  rw [hstrip, hcont, if_pos rfl, hsplit]
  rfl

theorem data_fence_json : ("```json\n".data : List Char) = ['`', '`', '`', 'j', 's', 'o', 'n', '\n'] := rfl

theorem data_fence_close : ("\n```".data : List Char) = ['\n', '`', '`', '`'] := rfl

theorem data_fence_plain : ("```\n".data : List Char) = ['`', '`', '`', '\n'] := rfl

theorem data_json : ("json".data : List Char) = ['j', 's', 'o', 'n'] := rfl

/-- C1: for every input text in which the model wraps its output in code
fences (with or without a leading `json` language tag), `parse_json_blob`
recovers the enclosed JSON object; and in general (no fences) it extracts
the object by taking the substring from the first `'{'` to the last `'}'`
of the text and parsing it, so any brace-free prose around the object is
ignored. -/
theorem parse_json_blob_extracts (o : List (String × String)) (pre post : List Char)
    (hgood : ∀ p ∈ o, goodJsonStr p.1 ∧ goodJsonStr p.2)
    (_hnd : (o.map Prod.fst).Nodup)
    (hpre : ∀ c ∈ pre, c ≠ '`') (hpost : ∀ c ∈ post, c ≠ '`') :
    parse_json_blob (pre ++ "```json\n".data ++ serializeObj o ++ "\n```".data ++ post)
        = some o
    ∧ parse_json_blob (pre ++ "```\n".data ++ serializeObj o ++ "\n```".data ++ post)
        = some o
    ∧ ('{' ∉ pre → '}' ∉ post →
        "json".data.isPrefixOf (pyStrip (pre ++ serializeObj o ++ post)) = false →
        parse_json_blob (pre ++ serializeObj o ++ post) = some o) := by
  have hserTick := tick_not_mem_serializeObj o hgood
  have hok : ∀ p ∈ o, '"' ∉ (p.1 : String).data ∧ '"' ∉ p.2.data :=
    fun p hp => ⟨(hgood p hp).1.1, (hgood p hp).2.1⟩
  have hobj : serializeObj o = '{' :: serializeMembers o ++ ['}'] := rfl
  have hsliceMid : braceSlice ('\n' :: (serializeObj o ++ ['\n'])) = serializeObj o := by
    rw [show '\n' :: (serializeObj o ++ ['\n'])
        = ['\n'] ++ ('{' :: serializeMembers o ++ ['}']) ++ ['\n'] by rw [← hobj]; simp]
    rw [braceSlice_sandwich ['\n'] (serializeMembers o) ['\n'] (by decide) (by decide), hobj]
  refine ⟨?_, ?_, ?_⟩
  · -- fenced, with a json language tag
    have hmid : ∀ c ∈ ("json\n".data ++ (serializeObj o ++ ['\n']) : List Char), c ≠ '`' := by
      intro c hc hEq
      subst hEq
      simp only [List.mem_append] at hc
      rcases hc with hc | hc | hc
      · exact absurd hc (by decide)
      · exact hserTick hc
      · exact absurd hc (by decide)
    rw [show pre ++ "```json\n".data ++ serializeObj o ++ "\n```".data ++ post
        = pre ++ fenceSep ++ ("json\n".data ++ (serializeObj o ++ ['\n'])) ++ fenceSep ++ post
        by simp [fenceSep_eq, data_fence_json, data_fence_close]]
    rw [parse_json_blob_fenced pre _ post hpre hmid hpost]
    rw [if_pos (show "json".data.isPrefixOf ("json\n".data ++ (serializeObj o ++ ['\n'])) = true
      by simp [data_json, List.isPrefixOf])]
    rw [show ("json\n".data ++ (serializeObj o ++ ['\n'])).drop 4
        = '\n' :: (serializeObj o ++ ['\n']) from rfl]
    rw [hsliceMid]
    exact jsonLoads_round o hok
  · -- fenced, no language tag
    have hmid : ∀ c ∈ ('\n' :: (serializeObj o ++ ['\n']) : List Char), c ≠ '`' := by
      intro c hc hEq
      subst hEq
      simp only [List.mem_cons, List.mem_append] at hc
      rcases hc with hc | hc | hc
      · exact absurd hc (by decide)
      · exact hserTick hc
      · exact absurd hc (by decide)
    rw [show pre ++ "```\n".data ++ serializeObj o ++ "\n```".data ++ post
        = pre ++ fenceSep ++ ('\n' :: (serializeObj o ++ ['\n'])) ++ fenceSep ++ post
        by simp [fenceSep_eq, data_fence_plain, data_fence_close]]
    rw [parse_json_blob_fenced pre _ post hpre hmid hpost]
    rw [if_neg (show ¬ ("json".data.isPrefixOf ('\n' :: (serializeObj o ++ ['\n'])) = true)
      by simp [data_json, List.isPrefixOf])]
    rw [hsliceMid]
    exact jsonLoads_round o hok
  · -- no fences: prose around the object
    intro hbpre hbpost hnj
    have hstripC : pyStrip (pre ++ serializeObj o ++ post)
        = pyStripLeft pre ++ serializeObj o ++ pyStripRight post := by
      have h := pyStrip_sandwich pre (serializeMembers o) post '{' '}' rfl rfl
      rw [show '{' :: (serializeMembers o ++ ['}']) = serializeObj o from rfl] at h
      exact h
    have hcontC : containsFence (pyStripLeft pre ++ serializeObj o ++ pyStripRight post)
        = false := by
      apply containsFence_eq_false
      intro c hc
      simp only [List.mem_append] at hc
      rcases hc with (hc | hc) | hc
      · exact hpre c (mem_pyStripLeft hc)
      · exact fun hEq => hserTick (hEq ▸ hc)
      · exact hpost c (mem_pyStripRight hc)
    rw [hstripC] at hnj
    simp only [parse_json_blob]
    rw [hstripC, hcontC]
    simp only [Bool.false_eq_true, if_false]
    rw [hnj]
    simp only [Bool.false_eq_true, if_false]
    rw [hobj, braceSlice_sandwich (pyStripLeft pre) (serializeMembers o) (pyStripRight post)
      (fun hc => hbpre (mem_pyStripLeft hc)) (fun hc => hbpost (mem_pyStripRight hc)),
      ← hobj]
    exact jsonLoads_round o hok

/-- Witness for C1 at a concrete model response wrapped in prose and a
tagged code fence, and at a concrete prose-only response. -/
theorem parse_json_blob_extracts_witness :
    (∀ c ∈ ("Here is the result: ".data : List Char), c ≠ '`')
    ∧ parse_json_blob ("Here is the result: ".data ++ "```json\n".data
        ++ serializeObj [("first_name", "Ada"), ("company", "Acme Co")]
        ++ "\n```".data ++ " Bye.".data)
      = some [("first_name", "Ada"), ("company", "Acme Co")]
    ∧ parse_json_blob ("Sure thing: ".data
        ++ serializeObj [("first_name", "Ada"), ("company", "Acme Co")]
        ++ " Bye.".data)
      = some [("first_name", "Ada"), ("company", "Acme Co")] :=
  ⟨by decide,
    (parse_json_blob_extracts [("first_name", "Ada"), ("company", "Acme Co")]
      "Here is the result: ".data " Bye.".data
      (by decide) (by decide) (by decide) (by decide)).1,
    (parse_json_blob_extracts [("first_name", "Ada"), ("company", "Acme Co")]
      "Sure thing: ".data " Bye.".data
      (by decide) (by decide) (by decide) (by decide)).2.2
      (by decide) (by decide) (by decide)⟩

/-! ### The record store (main.py lines 29-45, 200-214)

A stored row is one value per column of `COLUMNS`; `write_records` and
`load_records` embed the `csv.DictWriter` / `csv.DictReader` pair used
by the backend (delimiter `','`, quote char `'"'`, minimal quoting,
line terminator CR LF).  The reader model covers the grammar the writer
emits, which is the only input the round-trip claim concerns. -/

/-- The stored column set (main.py `COLUMNS`). -/
def COLUMNS : List String :=
  ["id", "first_name", "last_name", "company", "company_logo_description",
   "email", "phone", "address", "meeting_context", "priorities",
   "personal_notes", "captured_at", "source_image", "summary_image",
   "raw_ocr_json"]

/-- One record of the store: a string value for every column. -/
structure CardRecord where
  id : String
  first_name : String
  last_name : String
  company : String
  company_logo_description : String
  email : String
  phone : String
  address : String
  meeting_context : String
  priorities : String
  personal_notes : String
  captured_at : String
  source_image : String
  summary_image : String
  raw_ocr_json : String
deriving DecidableEq

/-- The row a record writes, in `COLUMNS` order. -/
def recToRow (r : CardRecord) : List (List Char) :=
  [r.id.data, r.first_name.data, r.last_name.data, r.company.data,
   r.company_logo_description.data, r.email.data, r.phone.data, r.address.data,
   r.meeting_context.data, r.priorities.data, r.personal_notes.data,
   r.captured_at.data, r.source_image.data, r.summary_image.data,
   r.raw_ocr_json.data]

/-- The record read back from a full row (`DictReader` zips the header
columns with the row values). -/
def rowToRec : List (List Char) → Option CardRecord
  | [a, b, c, d, e, f, g, h, i, j, k, l, m, n, o] =>
    some ⟨String.mk a, String.mk b, String.mk c, String.mk d, String.mk e,
      String.mk f, String.mk g, String.mk h, String.mk i, String.mk j,
      String.mk k, String.mk l, String.mk m, String.mk n, String.mk o⟩
  | _ => none

/-- A character that forces quoting under minimal quoting: the
delimiter, the quote char, or a line-terminator character. -/
def isCsvSpecial (c : Char) : Bool :=
  c = ',' || c = '"' || c = '\r' || c = '\n'

/-- Double each quote char, as the writer escapes quotes. -/
def escapeQ : List Char → List Char
  | [] => []
  | c :: rest => if c = '"' then '"' :: '"' :: escapeQ rest else c :: escapeQ rest

/-- Encode one field with minimal quoting. -/
def encodeField (f : List Char) : List Char :=
  if f.any isCsvSpecial then '"' :: escapeQ f ++ ['"'] else f

/-- Join the encoded fields of a row with the delimiter. -/
def encodeFields : List (List Char) → List Char
  | [] => []
  | [f] => encodeField f
  | f :: rest => encodeField f ++ ',' :: encodeFields rest

/-- Encode one row, terminated by CR LF. -/
def encodeRow (r : List (List Char)) : List Char := encodeFields r ++ ['\r', '\n']

/-- The header row written first by `ensure_data_file`/`write_records`. -/
def headerRow : List (List Char) := COLUMNS.map String.data

/-- Embeds `write_records`: the full file content produced for a record
list (header first, then one row per record). -/
def write_records (recs : List CardRecord) : List Char :=
  encodeRow headerRow ++ (recs.map (fun r => encodeRow (recToRow r))).flatten

/-- Scan a quoted field after its opening quote; a doubled quote is an
escaped quote, a lone quote closes the field. -/
def scanQ (l : List Char) : Option (List Char × List Char) :=
  match l with
  | [] => none
  | c :: rest =>
    if c = '"' then
      match rest with
      | c2 :: r2 =>
        if c2 = '"' then (scanQ r2).map (fun p => ('"' :: p.1, p.2))
        else some ([], rest)
      | [] => some ([], [])
    else (scanQ rest).map (fun p => (c :: p.1, p.2))
termination_by l.length
decreasing_by
  · simp only [List.length_cons]; omega
  · simp only [List.length_cons]; omega

/-- A character that continues an unquoted field. -/
def notFieldEnd (c : Char) : Bool := !(c = ',' || c = '\r' || c = '\n')

/-- Parse one field: quoted if it starts with a quote, otherwise up to
the next delimiter or row end. -/
def parseField1 (l : List Char) : Option (List Char × List Char) :=
  match l with
  | c :: rest =>
    if c = '"' then scanQ rest
    else some (l.takeWhile notFieldEnd, l.dropWhile notFieldEnd)
  | [] => some ([], [])

/-- Parse the fields of one row up to and including its CR LF
terminator (or the end of the file). -/
def parseRowFields : Nat → List Char → Option (List (List Char) × List Char)
  | 0, _ => none
  | fuel + 1, l =>
    match parseField1 l with
    | none => none
    | some (f, rest) =>
      match rest with
      | c :: r =>
        if c = ',' then (parseRowFields fuel r).map (fun p => (f :: p.1, p.2))
        else if c = '\r' then
          match r with
          | c2 :: r2 => if c2 = '\n' then some ([f], r2) else none
          | [] => none
        else none
      | [] => some ([f], [])

/-- Parse all rows of a file. -/
def parseRows : Nat → List Char → Option (List (List (List Char)))
  | 0, _ => none
  | fuel + 1, l =>
    if l = [] then some []
    else
      match parseRowFields (l.length + 1) l with
      | none => none
      | some (row, rest) => (parseRows fuel rest).map (fun rows => row :: rows)

/-- Read every parsed row back as a record. -/
def readRows : List (List (List Char)) → Option (List CardRecord)
  | [] => some []
  | row :: rest =>
    match rowToRec row, readRows rest with
    | some r, some rs => some (r :: rs)
    | _, _ => none

/-- Embeds `load_records`: parse the file, take the first row as the
header (always `COLUMNS` in files the backend writes), and read each
remaining row as a record. -/
def load_records (file : List Char) : Option (List CardRecord) :=
  match parseRows (file.length + 1) file with
  | some (hdr :: rows) => if hdr = headerRow then readRows rows else none
  | _ => none

/-! ### CSV round-trip lemmas -/

theorem scanQ_quote_cons (c2 : Char) (r2 : List Char) :
    scanQ ('"' :: c2 :: r2)
      = if c2 = '"' then (scanQ r2).map (fun p => ('"' :: p.1, p.2))
        else some ([], c2 :: r2) := by
  conv_lhs => rw [scanQ.eq_def]
  dsimp only
  rw [if_pos rfl]

theorem scanQ_quote_nil : scanQ ['"'] = some ([], []) := by
  conv_lhs => rw [scanQ.eq_def]
  dsimp only
  rw [if_pos rfl]

theorem scanQ_cons_ne (c : Char) (rest : List Char) (hc : c ≠ '"') :
    scanQ (c :: rest) = (scanQ rest).map (fun p => (c :: p.1, p.2)) := by
  conv_lhs => rw [scanQ.eq_def]
  dsimp only
  rw [if_neg hc]

theorem scanQ_escapeQ (f rest : List Char)
    (hr : ∀ c2 r2, rest = c2 :: r2 → c2 ≠ '"') :
    scanQ (escapeQ f ++ '"' :: rest) = some (f, rest) := by
  induction f with
  | nil =>
    show scanQ ('"' :: rest) = some ([], rest)
    cases rest with
    | nil => exact scanQ_quote_nil
    | cons c2 r2 => rw [scanQ_quote_cons, if_neg (hr c2 r2 rfl)]
  | cons c f2 ih =>
    by_cases hc : c = '"'
    · subst hc
      rw [show escapeQ ('"' :: f2) ++ '"' :: rest
          = '"' :: '"' :: (escapeQ f2 ++ '"' :: rest) from by simp [escapeQ]]
      rw [scanQ_quote_cons, if_pos rfl, ih]
      rfl
    · rw [show escapeQ (c :: f2) ++ '"' :: rest
          = c :: (escapeQ f2 ++ '"' :: rest) from by simp [escapeQ, hc]]
      rw [scanQ_cons_ne c _ hc, ih]
      rfl

theorem takeWhile_append_all (p : Char → Bool) (f rest : List Char)
    (hf : ∀ c ∈ f, p c = true)
    (hr : ∀ c r, rest = c :: r → p c = false) :
    (f ++ rest).takeWhile p = f ∧ (f ++ rest).dropWhile p = rest := by
  induction f with
  | nil =>
    cases rest with
    | nil => simp
    | cons c r =>
      simp [List.takeWhile_cons, List.dropWhile_cons, hr c r rfl]
  | cons c f2 ih =>
    have hp := hf c (by simp)
    have ih2 := ih (fun x hx => hf x (by simp [hx]))
    simp only [List.cons_append, List.takeWhile_cons, List.dropWhile_cons, hp, if_true]
    exact ⟨by rw [ih2.1], ih2.2⟩

theorem quote_not_mem_of_not_special (f : List Char) (hf : f.any isCsvSpecial = false) :
    '"' ∉ f := by
  intro h
  have := List.any_eq_false.mp hf '"' h
  simp [isCsvSpecial] at this

theorem parseField1_encode (f rest : List Char)
    (hrest : ∀ c r, rest = c :: r → c = ',' ∨ c = '\r') :
    parseField1 (encodeField f ++ rest) = some (f, rest) := by
  by_cases hq : f.any isCsvSpecial = true
  · rw [show encodeField f = '"' :: escapeQ f ++ ['"'] from by simp [encodeField, hq]]
    rw [show ('"' :: escapeQ f ++ ['"']) ++ rest = '"' :: (escapeQ f ++ '"' :: rest) by simp]
    show (if ('"' : Char) = '"' then scanQ (escapeQ f ++ '"' :: rest)
      else some ((('"' :: (escapeQ f ++ '"' :: rest)).takeWhile notFieldEnd),
        (('"' :: (escapeQ f ++ '"' :: rest)).dropWhile notFieldEnd))) = some (f, rest)
    rw [if_pos rfl]
    apply scanQ_escapeQ
    intro c2 r2 h2 hEq
    rcases hrest c2 r2 h2 with h | h <;> simp [hEq] at h
  · have hq2 : f.any isCsvSpecial = false := by
      cases h : f.any isCsvSpecial
      · rfl
      · exact absurd h hq
    have hall : ∀ c ∈ f, notFieldEnd c = true := by
      intro c hc
      have h0 := List.any_eq_false.mp hq2 c hc
      simp only [isCsvSpecial, Bool.or_eq_true, decide_eq_true_eq, not_or] at h0
      obtain ⟨⟨⟨h1, h2⟩, h3⟩, h4⟩ := h0
      simp [notFieldEnd, h1, h3, h4]
    have hrest2 : ∀ c r, rest = c :: r → notFieldEnd c = false := by
      intro c r h
      rcases hrest c r h with h2 | h2 <;> simp [notFieldEnd, h2]
    rw [show encodeField f = f from by simp [encodeField, hq2]]
    cases f with
    | nil =>
      cases rest with
      | nil => rfl
      | cons c r =>
        have hcq : c ≠ '"' := by
          rcases hrest c r rfl with h | h <;> simp [h]
        have hnf : notFieldEnd c = false := hrest2 c r rfl
        show parseField1 (c :: r) = some ([], c :: r)
        unfold parseField1
        dsimp only
        rw [if_neg hcq]
        simp [List.takeWhile_cons, List.dropWhile_cons, hnf]
    | cons cf lf =>
      have hcq : cf ≠ '"' := by
        intro hEq
        exact quote_not_mem_of_not_special _ hq2 (by rw [hEq] at *; simp)
      have hspan := takeWhile_append_all notFieldEnd (cf :: lf) rest hall hrest2
      rw [show (cf :: lf) ++ rest = cf :: (lf ++ rest) by simp]
      unfold parseField1
      dsimp only
      rw [if_neg hcq]
      rw [show cf :: (lf ++ rest) = (cf :: lf) ++ rest by simp, hspan.1, hspan.2]

theorem length_encodeFields :
    ∀ row : List (List Char), row.length ≤ (encodeFields row).length + 1
  | [] => by simp [encodeFields]
  | [f] => by simp [encodeFields]
  | f :: g :: rest => by
    have ih := length_encodeFields (g :: rest)
    rw [show encodeFields (f :: g :: rest)
        = encodeField f ++ ',' :: encodeFields (g :: rest) from rfl]
    simp only [List.length_append, List.length_cons] at *
    omega

theorem parseRowFields_encode :
    ∀ (row : List (List Char)), row ≠ [] →
      ∀ fuel, row.length ≤ fuel → ∀ tail,
      parseRowFields fuel (encodeFields row ++ '\r' :: '\n' :: tail) = some (row, tail)
  | [], hne, _, _, _ => absurd rfl hne
  | [f], _, fuel, hf, tail => by
    obtain ⟨f2, rfl⟩ : ∃ f2, fuel = f2 + 1 := by
      cases fuel with
      | zero => simp at hf
      | succ n => exact ⟨n, rfl⟩
    show parseRowFields (f2 + 1) (encodeField f ++ '\r' :: '\n' :: tail) = some ([f], tail)
    rw [show parseRowFields (f2 + 1) (encodeField f ++ '\r' :: '\n' :: tail)
        = (match parseField1 (encodeField f ++ '\r' :: '\n' :: tail) with
          | none => none
          | some (fld, rest) =>
            match rest with
            | c :: r =>
              if c = ',' then (parseRowFields f2 r).map (fun p => (fld :: p.1, p.2))
              else if c = '\r' then
                match r with
                | c2 :: r2 => if c2 = '\n' then some ([fld], r2) else none
                | [] => none
              else none
            | [] => some ([fld], [])) from rfl]
    rw [parseField1_encode f _ (fun c r h => by
      simp only [List.cons.injEq] at h
      exact Or.inr h.1.symm)]
    dsimp only
    rw [if_neg (by decide), if_pos rfl, if_pos rfl]
  | f :: g :: rest, _, fuel, hf, tail => by
    obtain ⟨f2, rfl⟩ : ∃ f2, fuel = f2 + 1 := by
      cases fuel with
      | zero => simp at hf
      | succ n => exact ⟨n, rfl⟩
    have ih := parseRowFields_encode (g :: rest) (List.cons_ne_nil g rest) f2
      (by simpa using hf) tail
    rw [show encodeFields (f :: g :: rest) ++ '\r' :: '\n' :: tail
        = encodeField f ++ (',' :: (encodeFields (g :: rest) ++ '\r' :: '\n' :: tail)) from by
      rw [show encodeFields (f :: g :: rest)
          = encodeField f ++ ',' :: encodeFields (g :: rest) from rfl]
      simp]
    rw [show parseRowFields (f2 + 1)
          (encodeField f ++ (',' :: (encodeFields (g :: rest) ++ '\r' :: '\n' :: tail)))
        = (match parseField1 (encodeField f
            ++ (',' :: (encodeFields (g :: rest) ++ '\r' :: '\n' :: tail))) with
          | none => none
          | some (fld, rest2) =>
            match rest2 with
            | c :: r =>
              if c = ',' then (parseRowFields f2 r).map (fun p => (fld :: p.1, p.2))
              else if c = '\r' then
                match r with
                | c2 :: r2 => if c2 = '\n' then some ([fld], r2) else none
                | [] => none
              else none
            | [] => some ([fld], [])) from rfl]
    rw [parseField1_encode f _ (fun c r h => by
      simp only [List.cons.injEq] at h
      exact Or.inl h.1.symm)]
    dsimp only
    rw [if_pos rfl, ih]
    rfl

theorem length_flatten_encodeRow (rows : List (List (List Char))) :
    rows.length ≤ ((rows.map encodeRow).flatten).length := by
  induction rows with
  | nil => simp
  | cons row rest ih =>
    simp only [List.map_cons, List.flatten_cons, List.length_append, List.length_cons,
      encodeRow, List.length_append] at *
    omega

theorem parseRows_encode :
    ∀ (rows : List (List (List Char))), (∀ r ∈ rows, r ≠ []) →
      ∀ fuel, rows.length < fuel →
      parseRows fuel ((rows.map encodeRow).flatten) = some rows
  | rows, hne, fuel, hf => by
    obtain ⟨f2, rfl⟩ : ∃ f2, fuel = f2 + 1 := by
      cases fuel with
      | zero => simp at hf
      | succ n => exact ⟨n, rfl⟩
    cases rows with
    | nil =>
      show parseRows (f2 + 1) [] = some []
      rw [show parseRows (f2 + 1) [] = if ([] : List Char) = [] then some []
          else (match parseRowFields ((List.length ([] : List Char)) + 1) [] with
            | none => none
            | some (row, rest) => (parseRows f2 rest).map (fun rows => row :: rows))
        from rfl]
      rw [if_pos rfl]
    | cons row rest =>
      have hrow : row ≠ [] := hne row (by simp)
      have hL : ((row :: rest).map encodeRow).flatten
          = encodeFields row ++ '\r' :: '\n' :: ((rest.map encodeRow).flatten) := by
        simp [encodeRow]
      have hnonnil : encodeFields row ++ '\r' :: '\n' :: ((rest.map encodeRow).flatten)
          ≠ [] := by simp
      rw [hL]
      rw [show parseRows (f2 + 1)
            (encodeFields row ++ '\r' :: '\n' :: ((rest.map encodeRow).flatten))
          = (if (encodeFields row ++ '\r' :: '\n' :: ((rest.map encodeRow).flatten)) = []
              then some []
              else (match parseRowFields
                  ((encodeFields row ++ '\r' :: '\n' :: ((rest.map encodeRow).flatten)).length + 1)
                  (encodeFields row ++ '\r' :: '\n' :: ((rest.map encodeRow).flatten)) with
                | none => none
                | some (row2, rest2) =>
                  (parseRows f2 rest2).map (fun rows => row2 :: rows))) from rfl]
      rw [if_neg hnonnil]
      have hfuelRow : row.length
          ≤ (encodeFields row ++ '\r' :: '\n' :: ((rest.map encodeRow).flatten)).length + 1 := by
        have h := length_encodeFields row
        simp only [List.length_append, List.length_cons]
        omega
      rw [parseRowFields_encode row hrow _ hfuelRow ((rest.map encodeRow).flatten)]
      dsimp only
      rw [parseRows_encode rest (fun r hr => hne r (by simp [hr])) f2 (by simpa using hf)]
      rfl

theorem rowToRec_recToRow (r : CardRecord) : rowToRec (recToRow r) = some r := rfl

theorem readRows_recToRow (recs : List CardRecord) :
    readRows (recs.map recToRow) = some recs := by
  induction recs with
  | nil => rfl
  | cons r rest ih =>
    show readRows (recToRow r :: rest.map recToRow) = some (r :: rest)
    rw [show readRows (recToRow r :: rest.map recToRow)
        = (match rowToRec (recToRow r), readRows (rest.map recToRow) with
          | some r2, some rs => some (r2 :: rs)
          | _, _ => none) from rfl]
    rw [rowToRec_recToRow, ih]

/-- C2: writing any record list with `write_records` and reading it back
with `load_records` (as the list and get endpoints do) returns exactly
the same records: the CSV write/read round trip is the identity. -/
theorem write_load_records_roundtrip (recs : List CardRecord) :
    load_records (write_records recs) = some recs := by
  have hfile : write_records recs
      = (((headerRow :: recs.map recToRow).map encodeRow).flatten) := by
    simp [write_records, encodeRow, List.map_map]
    rfl
  have hrowsne : ∀ r ∈ headerRow :: recs.map recToRow, r ≠ [] := by
    intro r hr
    simp only [List.mem_cons] at hr
    rcases hr with hr | hr
    · subst hr; simp [headerRow, COLUMNS]
    · obtain ⟨rec, _, rfl⟩ := List.mem_map.mp hr
      simp [recToRow]
  have hfuel : (headerRow :: recs.map recToRow).length
      < (write_records recs).length + 1 := by
    have h := length_flatten_encodeRow (headerRow :: recs.map recToRow)
    rw [hfile]
    omega
  unfold load_records
  rw [hfile, parseRows_encode (headerRow :: recs.map recToRow) hrowsne _ (by
    rw [← hfile] at *
    exact hfuel)]
  dsimp only
  rw [if_pos rfl, readRows_recToRow]

/-! ### Errors raised by the endpoints -/

/-- An `HTTPException(status_code, detail)`. -/
structure HTTPError where
  status : Nat
  detail : String
deriving DecidableEq

/-- The 404 raised by `update_record` and `get_card`. -/
def notFoundError : HTTPError := ⟨404, "Card not found"⟩

/-- The 400 raised by `upload_card` when no file is given. -/
def noFileError : HTTPError := ⟨400, "No file uploaded."⟩

/-- The 400 raised by `upload_card` on empty content. -/
def emptyFileError : HTTPError := ⟨400, "Uploaded file is empty."⟩

/-! ### Field updates (`row.update(changes)`) -/

/-- A column name of the store, as used in a change mapping. -/
inductive Column where
  | id | first_name | last_name | company | company_logo_description
  | email | phone | address | meeting_context | priorities | personal_notes
  | captured_at | source_image | summary_image | raw_ocr_json
deriving DecidableEq

/-- Set one named field of a record. -/
def setField (r : CardRecord) (f : Column) (v : String) : CardRecord :=
  match f with
  | .id => { r with id := v }
  | .first_name => { r with first_name := v }
  | .last_name => { r with last_name := v }
  | .company => { r with company := v }
  | .company_logo_description => { r with company_logo_description := v }
  | .email => { r with email := v }
  | .phone => { r with phone := v }
  | .address => { r with address := v }
  | .meeting_context => { r with meeting_context := v }
  | .priorities => { r with priorities := v }
  | .personal_notes => { r with personal_notes := v }
  | .captured_at => { r with captured_at := v }
  | .source_image => { r with source_image := v }
  | .summary_image => { r with summary_image := v }
  | .raw_ocr_json => { r with raw_ocr_json := v }

/-- Read one named field of a record. -/
def getField (r : CardRecord) : Column → String
  | .id => r.id
  | .first_name => r.first_name
  | .last_name => r.last_name
  | .company => r.company
  | .company_logo_description => r.company_logo_description
  | .email => r.email
  | .phone => r.phone
  | .address => r.address
  | .meeting_context => r.meeting_context
  | .priorities => r.priorities
  | .personal_notes => r.personal_notes
  | .captured_at => r.captured_at
  | .source_image => r.source_image
  | .summary_image => r.summary_image
  | .raw_ocr_json => r.raw_ocr_json

/-- Python `row.update(changes)`: apply every change in order. -/
def applyChanges (r : CardRecord) (changes : List (Column × String)) : CardRecord :=
  changes.foldl (fun acc p => setField acc p.1 p.2) r

/-! ### `update_record` (main.py lines 216-223) and `get_card` (302-307)

`update_record` loads the full store, mutates the first row whose id
matches, rewrites the whole file and returns the row; when no row
matches it raises 404 and never writes.  The embedding returns the
store content after the call together with the outcome. -/

/-- Embeds `update_record`. -/
def update_record : List CardRecord → String → List (Column × String) →
    List CardRecord × Except HTTPError CardRecord
  | [], _, _ => ([], .error notFoundError)
  | row :: rest, card_id, changes =>
    if row.id = card_id then
      (applyChanges row changes :: rest, .ok (applyChanges row changes))
    else
      let res := update_record rest card_id changes
      (row :: res.1, res.2)

/-- Embeds `get_card`: the first record whose id matches, or 404. -/
def get_card : List CardRecord → String → Except HTTPError CardRecord
  | [], _ => .error notFoundError
  | row :: rest, card_id =>
    if row.id = card_id then .ok row else get_card rest card_id

/-! ### Capture-time extraction (main.py lines 121-136)

`extract_capture_datetime` opens the image with PIL and walks the EXIF
tags; PIL is external, so the embedding takes the decoded tag list as
input: `none` when `Image.open`/`getexif` raises (bytes that are not a
decodable image), otherwise the list of (resolved tag name, value)
pairs in iteration order.  The current time is likewise an input. -/

/-- A UTC timestamp, as `datetime` components. -/
structure DateTimeParts where
  year : Nat
  month : Nat
  day : Nat
  hour : Nat
  minute : Nat
  second : Nat
  micro : Nat
deriving DecidableEq

def isLeapYear (y : Nat) : Bool := (y % 4 = 0 && y % 100 ≠ 0) || y % 400 = 0

def daysInMonth (y m : Nat) : Nat :=
  if m = 2 then (if isLeapYear y then 29 else 28)
  else if m = 4 || m = 6 || m = 9 || m = 11 then 30
  else 31

/-- Decimal digits, left-padded with zeros to width `w`. -/
def pad (w n : Nat) : List Char :=
  List.replicate (w - (toString n).length) '0' ++ (toString n).data

/-- `datetime.isoformat()` of a UTC-aware datetime: microseconds are
printed only when nonzero, and the offset is always `+00:00`. -/
def isoUTC (d : DateTimeParts) : String :=
  String.mk (pad 4 d.year ++ '-' :: pad 2 d.month ++ '-' :: pad 2 d.day
    ++ 'T' :: pad 2 d.hour ++ ':' :: pad 2 d.minute ++ ':' :: pad 2 d.second
    ++ (if d.micro = 0 then [] else '.' :: pad 6 d.micro) ++ "+00:00".data)

/-- Read up to `maxN` leading digits, returning value, digit count and
the rest. -/
def takeDigitsAux : Nat → Nat → Nat → List Char → Nat × Nat × List Char
  | 0, acc, cnt, l => (acc, cnt, l)
  | maxN + 1, acc, cnt, l =>
    match l with
    | c :: rest =>
      if c.isDigit then takeDigitsAux maxN (acc * 10 + (c.toNat - 48)) (cnt + 1) rest
      else (acc, cnt, l)
    | [] => (acc, cnt, [])

/-- `datetime.strptime(value, "%Y:%m:%d %H:%M:%S")`, including the
validity checks `datetime` performs (month and day ranges, 24-hour
clock); a failure of any check raises, which the caller catches. -/
def strptimeExif (s : String) : Option DateTimeParts :=
  let (y, cy, r1) := takeDigitsAux 4 0 0 s.data
  if cy ≠ 4 then none else
  match r1 with
  | ':' :: r2 =>
    let (mo, cmo, r3) := takeDigitsAux 2 0 0 r2
    if cmo = 0 then none else
    match r3 with
    | ':' :: r4 =>
      let (d, cd, r5) := takeDigitsAux 2 0 0 r4
      if cd = 0 then none else
      match r5 with
      | ' ' :: r6 =>
        let (h, ch, r7) := takeDigitsAux 2 0 0 r6
        if ch = 0 then none else
        match r7 with
        | ':' :: r8 =>
          let (mi, cmi, r9) := takeDigitsAux 2 0 0 r8
          if cmi = 0 then none else
          match r9 with
          | ':' :: r10 =>
            let (sec, cs, r11) := takeDigitsAux 2 0 0 r10
            if cs = 0 then none else
            if r11 = [] ∧ 1 ≤ y ∧ 1 ≤ mo ∧ mo ≤ 12 ∧ 1 ≤ d ∧ d ≤ daysInMonth y mo
                ∧ h ≤ 23 ∧ mi ≤ 59 ∧ sec ≤ 59 then
              some ⟨y, mo, d, h, mi, sec, 0⟩
            else none
          | _ => none
        | _ => none
      | _ => none
    | _ => none
  | _ => none

/-- The DateTime-style tag names accepted by the loop. -/
def exifDateTags : List String := ["DateTimeOriginal", "DateTimeDigitized", "DateTime"]

/-- The first DateTime-style tag whose value parses, in tag order. -/
def findFirstParseable : List (String × String) → Option DateTimeParts
  | [] => none
  | (tag, value) :: rest =>
    if tag ∈ exifDateTags then
      match strptimeExif value with
      | some d => some d
      | none => findFirstParseable rest
    else findFirstParseable rest

/-- Embeds `extract_capture_datetime`: the first parseable DateTime-style
EXIF tag normalized to UTC, else the current UTC time.  `exif = none`
models an exception while decoding the image (caught), `tags = []` the
falsy empty tag mapping. -/
def extract_capture_datetime (exif : Option (List (String × String)))
    (now : DateTimeParts) : String :=
  match exif with
  | none => isoUTC now
  | some tags =>
    if tags = [] then isoUTC now
    else
      match findFirstParseable tags with
      | some d => isoUTC d
      | none => isoUTC now

/-! ### The extraction request (main.py lines 139-174) -/

/-- The JSON keys the system prompt asks the model to include. -/
def extractionRequestKeys : List String :=
  ["first_name", "last_name", "company", "company_logo_description",
   "email", "phone", "address"]

/-- The system prompt of the extraction request. -/
def extractionSystemPrompt : String :=
  "You extract business card details. Respond with JSON only and include the keys: "
    ++ String.intercalate ", " extractionRequestKeys ++ "."

/-- The `response_format` type of the extraction request: a strict JSON
object. -/
def extractionResponseFormat : String := "json_object"

/-! ### `upload_card` (main.py lines 236-274) -/

/-- The record built by `upload_card`: extracted fields default to the
empty string when missing, annotation fields start empty, and the
summary image field starts empty. -/
def mkUploadRecord (card_id capture_time source_image_name : String)
    (extracted : List (String × String)) : CardRecord where
  id := card_id
  first_name := (extracted.lookup "first_name").getD ""
  last_name := (extracted.lookup "last_name").getD ""
  company := (extracted.lookup "company").getD ""
  company_logo_description := (extracted.lookup "company_logo_description").getD ""
  email := (extracted.lookup "email").getD ""
  phone := (extracted.lookup "phone").getD ""
  address := (extracted.lookup "address").getD ""
  meeting_context := ""
  priorities := ""
  personal_notes := ""
  captured_at := capture_time
  source_image := source_image_name
  summary_image := ""
  raw_ocr_json := String.mk (serializeObj extracted)

/-- Embeds the `upload_card` endpoint.  `file` is the uploaded content
(`none` when no file object is present), `exif`/`now` feed the
capture-time extraction, `extraction` is the outcome of the external
model call (an exception propagates), and the generated id and saved
file name are inputs since they come from `uuid4` and the file system. -/
def upload_card (store : List CardRecord) (file : Option (List Nat))
    (exif : Option (List (String × String))) (now : DateTimeParts)
    (extraction : Except String (List (String × String)))
    (card_id source_image_name : String) :
    List CardRecord × Except HTTPError CardRecord :=
  match file with
  | none => (store, .error noFileError)
  | some image_bytes =>
    if image_bytes = [] then (store, .error emptyFileError)
    else
      let capture_time := extract_capture_datetime exif now
      match extraction with
      | .error e => (store, .error ⟨500, e⟩)
      | .ok extracted =>
        let record := mkUploadRecord card_id capture_time source_image_name extracted
        (store ++ [record], .ok record)

/-! ### Context and summary generation (main.py lines 226-233, 277-293) -/

/-- The request body of the context endpoint. -/
structure CardContext where
  meeting_context : String
  priorities : String
  personal_notes : String

/-- Python `str.strip()` on a `String`. -/
def stripStr (s : String) : String := String.mk (pyStrip s.data)

/-- The name the prompt shows: the stripped full name, or the fallback
`this contact` when it is empty (Python `full_name or 'this contact'`). -/
def displayName (record : CardRecord) : String :=
  let full_name := stripStr (stripStr record.first_name ++ " " ++ stripStr record.last_name)
  if full_name = "" then "this contact" else full_name

/-- Embeds `summarize_for_image`.  The record always carries every
column (rows are read back full), so the `record.get` defaults for
company, phone and email are dead and the fields are used directly. -/
def summarize_for_image (record : CardRecord) (context : CardContext) : String :=
  "Create a friendly, professional portrait for "
    ++ displayName record
    ++ " who works at " ++ record.company ++ ". "
    ++ "Highlight cues from the business card: phone " ++ record.phone
    ++ ", email " ++ record.email ++ ". "
    ++ "Meeting context: " ++ context.meeting_context
    ++ ". Priorities: " ++ context.priorities
    ++ ". Personal details: " ++ context.personal_notes ++ ". "
    ++ "Style: clean, corporate-ready, subtle background with company color hints, photographic realism."

/-- The size `save_context` requests from `create_image`. -/
def summary_image_size : String := "1024x1024"

/-- The change mapping the context endpoint merges into the record. -/
def contextChanges (payload : CardContext) : List (Column × String) :=
  [(Column.meeting_context, payload.meeting_context),
   (Column.priorities, payload.priorities),
   (Column.personal_notes, payload.personal_notes)]

/-- Embeds the `save_context` endpoint.  `create_image` is the external
image-generation service: `save_context` calls it once with the
composed prompt and the fixed square size; an exception propagates and
nothing further is written. -/
def save_context (store : List CardRecord) (card_id : String) (payload : CardContext)
    (create_image : String → String → Except String (List Nat))
    (summary_image_name : String) :
    List CardRecord × Except HTTPError CardRecord :=
  let step1 := update_record store card_id (contextChanges payload)
  match step1.2 with
  | .error e => (step1.1, .error e)
  | .ok record =>
    match create_image (summarize_for_image record payload) summary_image_size with
    | .error e => (step1.1, .error ⟨500, e⟩)
    | .ok _ => update_record step1.1 card_id [(Column.summary_image, summary_image_name)]

/-! ### C3 and C10: capture-time extraction -/

/-- C3: `extract_capture_datetime` returns the embedded EXIF capture
time (the first DateTime-style tag parseable in the fixed pattern
`%Y:%m:%d %H:%M:%S`) normalized to UTC when one exists, and the current
UTC time when the image has no such parseable tag (or cannot be
decoded at all). -/
theorem extract_capture_datetime_spec (exif : Option (List (String × String)))
    (now : DateTimeParts) :
    (∀ tags d, exif = some tags → findFirstParseable tags = some d →
        extract_capture_datetime exif now = isoUTC d)
    ∧ (∀ tags, exif = some tags → findFirstParseable tags = none →
        extract_capture_datetime exif now = isoUTC now)
    ∧ (exif = none → extract_capture_datetime exif now = isoUTC now) := by
  refine ⟨?_, ?_, ?_⟩
  · intro tags d hE hF
    subst hE
    by_cases ht : tags = []
    · subst ht
      simp [findFirstParseable] at hF
    · simp [extract_capture_datetime, ht, hF]
  · intro tags hE hF
    subst hE
    by_cases ht : tags = []
    · subst ht
      simp [extract_capture_datetime]
    · simp [extract_capture_datetime, ht, hF]
  · intro hE
    subst hE
    rfl

/-- Witness for C3: a tag list with a parseable DateTime tag yields its
normalized value; one without yields the current time. -/
theorem extract_capture_datetime_spec_witness :
    extract_capture_datetime (some [("Make", "Canon"), ("DateTime", "2024:01:02 03:04:05")])
        ⟨2026, 10, 12, 1, 2, 3, 0⟩ = isoUTC ⟨2024, 1, 2, 3, 4, 5, 0⟩
    ∧ extract_capture_datetime (some [("Make", "Canon"), ("DateTime", "not a date")])
        ⟨2026, 10, 12, 1, 2, 3, 0⟩ = isoUTC ⟨2026, 10, 12, 1, 2, 3, 0⟩ :=
  ⟨(extract_capture_datetime_spec _ _).1 _ ⟨2024, 1, 2, 3, 4, 5, 0⟩ rfl (by decide),
   (extract_capture_datetime_spec _ _).2.1 _ rfl (by decide)⟩

/-- C10: `extract_capture_datetime` is total: for every decode outcome,
including undecodable bytes (`exif = none`) and malformed tag values, it
returns an ISO-format UTC timestamp string: either the parsed first
DateTime-style tag or the current time.  Every exception of the source
is caught inside the function, which the embedding reflects by being a
total function into `String`. -/
theorem extract_capture_datetime_total (exif : Option (List (String × String)))
    (now : DateTimeParts) :
    ∃ d : DateTimeParts, extract_capture_datetime exif now = isoUTC d
      ∧ (d = now ∨ ∃ tags, exif = some tags ∧ findFirstParseable tags = some d) := by
  match exif with
  | none => exact ⟨now, rfl, Or.inl rfl⟩
  | some tags =>
    by_cases ht : tags = []
    · subst ht
      exact ⟨now, by simp [extract_capture_datetime], Or.inl rfl⟩
    · cases hF : findFirstParseable tags with
      | some d =>
        exact ⟨d, by simp [extract_capture_datetime, ht, hF], Or.inr ⟨tags, rfl, hF⟩⟩
      | none =>
        exact ⟨now, by simp [extract_capture_datetime, ht, hF], Or.inl rfl⟩

/-! ### Store lemmas for the endpoint claims -/

theorem update_record_not_found (store : List CardRecord) (cid : String)
    (changes : List (Column × String)) (h : ∀ r ∈ store, r.id ≠ cid) :
    update_record store cid changes = (store, .error notFoundError) := by
  induction store with
  | nil => rfl
  | cons row rest ih =>
    have hr : row.id ≠ cid := h row (by simp)
    have ih2 := ih (fun x hx => h x (by simp [hx]))
    simp [update_record, hr, ih2]

theorem get_card_not_found (store : List CardRecord) (cid : String)
    (h : ∀ r ∈ store, r.id ≠ cid) :
    get_card store cid = .error notFoundError := by
  induction store with
  | nil => rfl
  | cons row rest ih =>
    have hr : row.id ≠ cid := h row (by simp)
    have ih2 := ih (fun x hx => h x (by simp [hx]))
    simp [get_card, hr, ih2]

/-- C5: for every card id not present in the store, `update_record` (as
used by POST context) and `get_card` return the not-found error, and the
store is left exactly as it was: no write is performed. -/
theorem unknown_id_not_found (store : List CardRecord) (cid : String)
    (changes : List (Column × String)) (payload : CardContext)
    (create_image : String → String → Except String (List Nat)) (name : String)
    (h : ∀ r ∈ store, r.id ≠ cid) :
    update_record store cid changes = (store, .error notFoundError)
    ∧ get_card store cid = .error notFoundError
    ∧ save_context store cid payload create_image name = (store, .error notFoundError) := by
  refine ⟨update_record_not_found store cid changes h, get_card_not_found store cid h, ?_⟩
  unfold save_context
  rw [update_record_not_found store cid (contextChanges payload) h]

/-- Witness for C5 at a one-record store and an id it does not hold. -/
theorem unknown_id_not_found_witness :
    get_card [mkUploadRecord "a1" "t" "s.png" []] "missing" = .error notFoundError
    ∧ save_context [mkUploadRecord "a1" "t" "s.png" []] "missing"
        ⟨"ctx", "prio", "notes"⟩ (fun _ _ => .ok [0]) "sum.png"
      = ([mkUploadRecord "a1" "t" "s.png" []], .error notFoundError) :=
  ⟨(unknown_id_not_found [mkUploadRecord "a1" "t" "s.png" []] "missing" []
      ⟨"ctx", "prio", "notes"⟩ (fun _ _ => .ok [0]) "sum.png" (by decide)).2.1,
   (unknown_id_not_found [mkUploadRecord "a1" "t" "s.png" []] "missing" []
      ⟨"ctx", "prio", "notes"⟩ (fun _ _ => .ok [0]) "sum.png" (by decide)).2.2⟩

theorem getField_setField_ne (r : CardRecord) (f g : Column) (v : String) (h : f ≠ g) :
    getField (setField r g v) f = getField r f := by
  cases f <;> cases g <;> first | exact absurd rfl h | rfl

theorem applyChanges_frame :
    ∀ (changes : List (Column × String)) (r : CardRecord) (f : Column),
      f ∉ changes.map Prod.fst →
      getField (applyChanges r changes) f = getField r f
  | [], _, _, _ => rfl
  | (g, v) :: cs, r, f, hf => by
    have hfg : f ≠ g := fun hEq => hf (by simp [hEq])
    have hrest : f ∉ cs.map Prod.fst := fun hm => hf (by simp [hm])
    show getField (applyChanges (setField r g v) cs) f = getField r f
    rw [applyChanges_frame cs (setField r g v) f hrest, getField_setField_ne r f g v hfg]

/-- C9: `update_record` rewrites the store with only the first record
whose id matches replaced by its updated copy; every other record is
unchanged, and every field of the matching record not named in the
change mapping keeps its value. -/
theorem update_record_frame (a : List CardRecord) (r : CardRecord) (b : List CardRecord)
    (cid : String) (changes : List (Column × String))
    (ha : ∀ x ∈ a, x.id ≠ cid) (hr : r.id = cid) :
    update_record (a ++ r :: b) cid changes
      = (a ++ applyChanges r changes :: b, .ok (applyChanges r changes))
    ∧ (∀ f : Column, f ∉ changes.map Prod.fst →
        getField (applyChanges r changes) f = getField r f) := by
  constructor
  · induction a with
    | nil => simp [update_record, hr]
    | cons x rest ih =>
      have hx : x.id ≠ cid := ha x (by simp)
      have ih2 := ih (fun y hy => ha y (by simp [hy]))
      simp only [List.cons_append, update_record, if_neg hx, List.append_eq]
      rw [ih2]
  · exact fun f hf => applyChanges_frame changes r f hf

/-- Witness for C9: a two-record store where only the second record
matches; only its named fields change. -/
theorem update_record_frame_witness :
    update_record [mkUploadRecord "a1" "t" "s.png" [], mkUploadRecord "b2" "t2" "s2.png" []]
        "b2" [(Column.priorities, "p")]
      = ([mkUploadRecord "a1" "t" "s.png" [],
          applyChanges (mkUploadRecord "b2" "t2" "s2.png" []) [(Column.priorities, "p")]],
        .ok (applyChanges (mkUploadRecord "b2" "t2" "s2.png" []) [(Column.priorities, "p")]))
    ∧ getField (applyChanges (mkUploadRecord "b2" "t2" "s2.png" [])
        [(Column.priorities, "p")]) Column.phone
      = getField (mkUploadRecord "b2" "t2" "s2.png" []) Column.phone :=
  ⟨(update_record_frame [mkUploadRecord "a1" "t" "s.png" []]
      (mkUploadRecord "b2" "t2" "s2.png" []) [] "b2" [(Column.priorities, "p")]
      (by decide) (by decide)).1,
   (update_record_frame [mkUploadRecord "a1" "t" "s.png" []]
      (mkUploadRecord "b2" "t2" "s2.png" []) [] "b2" [(Column.priorities, "p")]
      (by decide) (by decide)).2 Column.phone (by decide)⟩

/-- C7: an upload with no file object, or with empty file content, fails
with a 400 bad-request error and the store is unchanged: no record is
created. -/
theorem upload_card_rejects_empty (store : List CardRecord)
    (exif : Option (List (String × String))) (now : DateTimeParts)
    (extraction : Except String (List (String × String)))
    (cid si : String) :
    upload_card store none exif now extraction cid si = (store, .error noFileError)
    ∧ upload_card store (some []) exif now extraction cid si = (store, .error emptyFileError)
    ∧ noFileError.status = 400 ∧ emptyFileError.status = 400 := by
  exact ⟨rfl, rfl, rfl, rfl⟩

theorem update_record_preserves_summary (cid : String)
    (changes : List (Column × String))
    (hch : Column.summary_image ∉ changes.map Prod.fst) :
    ∀ store : List CardRecord, (∀ r ∈ store, r.summary_image = "") →
      ∀ r2 ∈ (update_record store cid changes).1, r2.summary_image = "" := by
  intro store
  induction store with
  | nil =>
    intro _
    simp [update_record]
  | cons row rest ih =>
    intro hstore r2 hr2
    by_cases hid : row.id = cid
    · rw [show update_record (row :: rest) cid changes
          = (applyChanges row changes :: rest, .ok (applyChanges row changes)) from by
        simp [update_record, hid]] at hr2
      simp only [List.mem_cons] at hr2
      rcases hr2 with hr2 | hr2
      · subst hr2
        have h := applyChanges_frame changes row Column.summary_image hch
        have hg : getField (applyChanges row changes) Column.summary_image
            = (applyChanges row changes).summary_image := rfl
        rw [hg] at h
        rw [h]
        exact hstore row (by simp)
      · exact hstore r2 (by simp [hr2])
    · rw [show update_record (row :: rest) cid changes
          = (row :: (update_record rest cid changes).1, (update_record rest cid changes).2)
          from by simp [update_record, hid]] at hr2
      simp only [List.mem_cons] at hr2
      rcases hr2 with hr2 | hr2
      · exact hstore r2 (by simp [hr2])
      · exact ih (fun x hx => hstore x (by simp [hx])) r2 hr2

/-- C6: the three annotation fields and the summary image field are
empty at creation; the summary image field is untouched by upload and
by a context save whose image generation fails, so it stays empty until
context has been submitted and generation succeeds. -/
theorem summary_empty_invariant :
    (∀ (cid ct si : String) (extracted : List (String × String)),
      (mkUploadRecord cid ct si extracted).meeting_context = ""
      ∧ (mkUploadRecord cid ct si extracted).priorities = ""
      ∧ (mkUploadRecord cid ct si extracted).personal_notes = ""
      ∧ (mkUploadRecord cid ct si extracted).summary_image = "")
    ∧ (∀ (store : List CardRecord) (file : Option (List Nat))
        (exif : Option (List (String × String))) (now : DateTimeParts)
        (extraction : Except String (List (String × String))) (cid si : String),
        (∀ r ∈ store, r.summary_image = "") →
        ∀ r2 ∈ (upload_card store file exif now extraction cid si).1,
          r2.summary_image = "")
    ∧ (∀ (store : List CardRecord) (cid : String) (payload : CardContext)
        (err : String) (name : String),
        (∀ r ∈ store, r.summary_image = "") →
        ∀ r2 ∈ (save_context store cid payload (fun _ _ => .error err) name).1,
          r2.summary_image = "") := by
  refine ⟨fun _ _ _ _ => ⟨rfl, rfl, rfl, rfl⟩, ?_, ?_⟩
  · intro store file exif now extraction cid si hstore r2 hr2
    match file with
    | none => exact hstore r2 hr2
    | some image_bytes =>
      by_cases hb : image_bytes = []
      · rw [show upload_card store (some image_bytes) exif now extraction cid si
            = (store, .error emptyFileError) from by simp [upload_card, hb]] at hr2
        exact hstore r2 hr2
      · match extraction with
        | .error e =>
          rw [show upload_card store (some image_bytes) exif now (.error e) cid si
              = (store, .error ⟨500, e⟩) from by simp [upload_card, hb]] at hr2
          exact hstore r2 hr2
        | .ok extracted =>
          rw [show upload_card store (some image_bytes) exif now (.ok extracted) cid si
              = (store ++ [mkUploadRecord cid (extract_capture_datetime exif now) si extracted],
                 .ok (mkUploadRecord cid (extract_capture_datetime exif now) si extracted))
              from by simp [upload_card, hb]] at hr2
          simp only [List.mem_append, List.mem_singleton] at hr2
          rcases hr2 with hr2 | hr2
          · exact hstore r2 hr2
          · subst hr2; rfl
  · intro store cid payload err name hstore r2 hr2
    have hch : Column.summary_image ∉ (contextChanges payload).map Prod.fst := by
      simp [contextChanges]
    have hpres := update_record_preserves_summary cid (contextChanges payload) hch store hstore
    simp only [save_context] at hr2
    cases hstep : (update_record store cid (contextChanges payload)).2 with
    | error e =>
      rw [hstep] at hr2
      exact hpres r2 hr2
    | ok record =>
      rw [hstep] at hr2
      exact hpres r2 hr2

/-- Witness for C6: a record just created has all four fields empty, and
after a context save whose generation fails, the stored record has kept
an empty summary image field. -/
theorem summary_empty_invariant_witness :
    (mkUploadRecord "a1" "t" "s.png" [("company", "Acme")]).summary_image = ""
    ∧ (mkUploadRecord "a1" "t" "s.png" [("company", "Acme")]).meeting_context = ""
    ∧ (applyChanges (mkUploadRecord "a1" "t" "s.png" [])
        (contextChanges ⟨"c", "p", "n"⟩)).summary_image = "" :=
  ⟨((summary_empty_invariant).1 "a1" "t" "s.png" [("company", "Acme")]).2.2.2,
   ((summary_empty_invariant).1 "a1" "t" "s.png" [("company", "Acme")]).1,
   (summary_empty_invariant).2.2 [mkUploadRecord "a1" "t" "s.png" []] "a1"
     ⟨"c", "p", "n"⟩ "boom" "sum.png" (by decide)
     (applyChanges (mkUploadRecord "a1" "t" "s.png" []) (contextChanges ⟨"c", "p", "n"⟩))
     (by decide)⟩

set_option maxRecDepth 8000 in
/-- C8: the image prompt composed for a record and submitted context
embeds the displayed contact name, the company, phone and email fields,
and the three annotation fields; and the context endpoint requests the
image from the external service with exactly this prompt and the fixed
square size 1024x1024. -/
theorem summarize_for_image_embeds (r : CardRecord) (ctx : CardContext) :
    (∃ x y : List Char, (summarize_for_image r ctx).data = x ++ (displayName r).data ++ y)
    ∧ (∃ x y : List Char, (summarize_for_image r ctx).data = x ++ r.company.data ++ y)
    ∧ (∃ x y : List Char, (summarize_for_image r ctx).data = x ++ r.phone.data ++ y)
    ∧ (∃ x y : List Char, (summarize_for_image r ctx).data = x ++ r.email.data ++ y)
    ∧ (∃ x y : List Char, (summarize_for_image r ctx).data
        = x ++ ctx.meeting_context.data ++ y)
    ∧ (∃ x y : List Char, (summarize_for_image r ctx).data = x ++ ctx.priorities.data ++ y)
    ∧ (∃ x y : List Char, (summarize_for_image r ctx).data
        = x ++ ctx.personal_notes.data ++ y)
    ∧ summary_image_size = "1024x1024"
    ∧ (∃ n : Nat, summary_image_size.data = (toString n).data ++ 'x' :: (toString n).data)
    ∧ (∀ (a b : List CardRecord) (cid : String)
        (g : String → String → Except String (List Nat))
        (payload : CardContext) (name : String),
        (∀ x ∈ a, x.id ≠ cid) → r.id = cid →
        save_context (a ++ r :: b) cid payload g name
          = (match g (summarize_for_image (applyChanges r (contextChanges payload)) payload)
                summary_image_size with
            | .error e => (a ++ applyChanges r (contextChanges payload) :: b, .error ⟨500, e⟩)
            | .ok _ => update_record (a ++ applyChanges r (contextChanges payload) :: b) cid
                [(Column.summary_image, name)])) := by
  refine ⟨⟨"Create a friendly, professional portrait for ".data,
      (" who works at " ++ r.company ++ ". "
        ++ "Highlight cues from the business card: phone " ++ r.phone
        ++ ", email " ++ r.email ++ ". "
        ++ "Meeting context: " ++ ctx.meeting_context
        ++ ". Priorities: " ++ ctx.priorities
        ++ ". Personal details: " ++ ctx.personal_notes ++ ". "
        ++ "Style: clean, corporate-ready, subtle background with company color hints, photographic realism.").data,
      ?_⟩,
    ⟨("Create a friendly, professional portrait for " ++ displayName r
        ++ " who works at ").data,
      (". " ++ "Highlight cues from the business card: phone " ++ r.phone
        ++ ", email " ++ r.email ++ ". "
        ++ "Meeting context: " ++ ctx.meeting_context
        ++ ". Priorities: " ++ ctx.priorities
        ++ ". Personal details: " ++ ctx.personal_notes ++ ". "
        ++ "Style: clean, corporate-ready, subtle background with company color hints, photographic realism.").data,
      ?_⟩,
    ⟨("Create a friendly, professional portrait for " ++ displayName r
        ++ " who works at " ++ r.company ++ ". "
        ++ "Highlight cues from the business card: phone ").data,
      (", email " ++ r.email ++ ". "
        ++ "Meeting context: " ++ ctx.meeting_context
        ++ ". Priorities: " ++ ctx.priorities
        ++ ". Personal details: " ++ ctx.personal_notes ++ ". "
        ++ "Style: clean, corporate-ready, subtle background with company color hints, photographic realism.").data,
      ?_⟩,
    ⟨("Create a friendly, professional portrait for " ++ displayName r
        ++ " who works at " ++ r.company ++ ". "
        ++ "Highlight cues from the business card: phone " ++ r.phone
        ++ ", email ").data,
      (". " ++ "Meeting context: " ++ ctx.meeting_context
        ++ ". Priorities: " ++ ctx.priorities
        ++ ". Personal details: " ++ ctx.personal_notes ++ ". "
        ++ "Style: clean, corporate-ready, subtle background with company color hints, photographic realism.").data,
      ?_⟩,
    ⟨("Create a friendly, professional portrait for " ++ displayName r
        ++ " who works at " ++ r.company ++ ". "
        ++ "Highlight cues from the business card: phone " ++ r.phone
        ++ ", email " ++ r.email ++ ". " ++ "Meeting context: ").data,
      (". Priorities: " ++ ctx.priorities
        ++ ". Personal details: " ++ ctx.personal_notes ++ ". "
        ++ "Style: clean, corporate-ready, subtle background with company color hints, photographic realism.").data,
      ?_⟩,
    ⟨("Create a friendly, professional portrait for " ++ displayName r
        ++ " who works at " ++ r.company ++ ". "
        ++ "Highlight cues from the business card: phone " ++ r.phone
        ++ ", email " ++ r.email ++ ". "
        ++ "Meeting context: " ++ ctx.meeting_context ++ ". Priorities: ").data,
      (". Personal details: " ++ ctx.personal_notes ++ ". "
        ++ "Style: clean, corporate-ready, subtle background with company color hints, photographic realism.").data,
      ?_⟩,
    ⟨("Create a friendly, professional portrait for " ++ displayName r
        ++ " who works at " ++ r.company ++ ". "
        ++ "Highlight cues from the business card: phone " ++ r.phone
        ++ ", email " ++ r.email ++ ". "
        ++ "Meeting context: " ++ ctx.meeting_context
        ++ ". Priorities: " ++ ctx.priorities ++ ". Personal details: ").data,
      (". "
        ++ "Style: clean, corporate-ready, subtle background with company color hints, photographic realism.").data,
      ?_⟩,
    rfl, ⟨1024, by decide⟩, ?_⟩
  case _ => simp [summarize_for_image, String.data_append]
  case _ => simp [summarize_for_image, String.data_append]
  case _ => simp [summarize_for_image, String.data_append]
  case _ => simp [summarize_for_image, String.data_append]
  case _ => simp [summarize_for_image, String.data_append]
  case _ => simp [summarize_for_image, String.data_append]
  case _ => simp [summarize_for_image, String.data_append]
  case _ =>
    intro a b cid g payload name ha hr
    unfold save_context
    rw [(update_record_frame a r b cid (contextChanges payload) ha hr).1]

/-- Witness for C8: on a one-record store with a generator that
succeeds, the context endpoint performs exactly the summary-image
update after the generation call. -/
theorem summarize_for_image_embeds_witness :
    save_context [mkUploadRecord "a1" "t" "s.png" []] "a1" ⟨"c", "p", "n"⟩
        (fun _ _ => .ok [7]) "sum.png"
      = update_record [applyChanges (mkUploadRecord "a1" "t" "s.png" [])
          (contextChanges ⟨"c", "p", "n"⟩)] "a1" [(Column.summary_image, "sum.png")] :=
  ((summarize_for_image_embeds (mkUploadRecord "a1" "t" "s.png" [])
      ⟨"c", "p", "n"⟩).2.2.2.2.2.2.2.2.2 [] [] "a1" (fun _ _ => .ok [7])
      ⟨"c", "p", "n"⟩ "sum.png" (by decide) (by decide)).trans rfl

/-! ### C4: the extraction request and the created record -/

theorem lookup_eq_none_of_not_mem (k : String) (l : List (String × String))
    (h : k ∉ l.map Prod.fst) : l.lookup k = none := by
  induction l with
  | nil => rfl
  | cons p rest ih =>
    obtain ⟨a, b⟩ := p
    have hka : (k == a) = false := beq_eq_false_iff_ne.mpr (fun hEq => h (by simp [hEq]))
    simp [List.lookup, hka, ih (fun hm => h (by simp [hm]))]

/-- C4 counterexample: the extraction request does not name six JSON
keys; the system prompt asks for seven. -/
theorem extraction_request_not_six_keys : ¬ (extractionRequestKeys.length = 6) := by
  decide

/-- C4 (amended): the upload operation asks the external model for a
strict JSON object (`response_format json_object`) with seven named
keys, and every key missing from the parsed extraction result is stored
as the empty string in the created record. -/
theorem extraction_seven_keys_missing_default_empty :
    extractionRequestKeys.length = 7
    ∧ extractionSystemPrompt
        = "You extract business card details. Respond with JSON only and include the keys: first_name, last_name, company, company_logo_description, email, phone, address."
    ∧ extractionResponseFormat = "json_object"
    ∧ ∀ (extracted : List (String × String)) (cid ct si : String),
        ("first_name" ∉ extracted.map Prod.fst
          → (mkUploadRecord cid ct si extracted).first_name = "")
        ∧ ("last_name" ∉ extracted.map Prod.fst
          → (mkUploadRecord cid ct si extracted).last_name = "")
        ∧ ("company" ∉ extracted.map Prod.fst
          → (mkUploadRecord cid ct si extracted).company = "")
        ∧ ("company_logo_description" ∉ extracted.map Prod.fst
          → (mkUploadRecord cid ct si extracted).company_logo_description = "")
        ∧ ("email" ∉ extracted.map Prod.fst
          → (mkUploadRecord cid ct si extracted).email = "")
        ∧ ("phone" ∉ extracted.map Prod.fst
          → (mkUploadRecord cid ct si extracted).phone = "")
        ∧ ("address" ∉ extracted.map Prod.fst
          → (mkUploadRecord cid ct si extracted).address = "") := by
  refine ⟨rfl, rfl, rfl, ?_⟩
  intro extracted cid ct si
  refine ⟨?_, ?_, ?_, ?_, ?_, ?_, ?_⟩
  · intro h
    show (extracted.lookup "first_name").getD "" = ""
    rw [lookup_eq_none_of_not_mem _ _ h]
    rfl
  · intro h
    show (extracted.lookup "last_name").getD "" = ""
    rw [lookup_eq_none_of_not_mem _ _ h]
    rfl
  · intro h
    show (extracted.lookup "company").getD "" = ""
    rw [lookup_eq_none_of_not_mem _ _ h]
    rfl
  · intro h
    show (extracted.lookup "company_logo_description").getD "" = ""
    rw [lookup_eq_none_of_not_mem _ _ h]
    rfl
  · intro h
    show (extracted.lookup "email").getD "" = ""
    rw [lookup_eq_none_of_not_mem _ _ h]
    rfl
  · intro h
    show (extracted.lookup "phone").getD "" = ""
    rw [lookup_eq_none_of_not_mem _ _ h]
    rfl
  · intro h
    show (extracted.lookup "address").getD "" = ""
    rw [lookup_eq_none_of_not_mem _ _ h]
    rfl

/-- Witness for C4 (amended): an extraction result carrying only an
email stores the empty string in every other extracted field. -/
theorem extraction_seven_keys_witness :
    (mkUploadRecord "a1" "t" "s.png" [("email", "e@x.co")]).first_name = ""
    ∧ (mkUploadRecord "a1" "t" "s.png" [("email", "e@x.co")]).last_name = ""
    ∧ (mkUploadRecord "a1" "t" "s.png" [("email", "e@x.co")]).company = ""
    ∧ (mkUploadRecord "a1" "t" "s.png" [("email", "e@x.co")]).company_logo_description = ""
    ∧ (mkUploadRecord "a1" "t" "s.png" [("email", "e@x.co")]).phone = ""
    ∧ (mkUploadRecord "a1" "t" "s.png" [("email", "e@x.co")]).address = "" :=
  ⟨((extraction_seven_keys_missing_default_empty).2.2.2 [("email", "e@x.co")]
      "a1" "t" "s.png").1 (by decide),
   ((extraction_seven_keys_missing_default_empty).2.2.2 [("email", "e@x.co")]
      "a1" "t" "s.png").2.1 (by decide),
   ((extraction_seven_keys_missing_default_empty).2.2.2 [("email", "e@x.co")]
      "a1" "t" "s.png").2.2.1 (by decide),
   ((extraction_seven_keys_missing_default_empty).2.2.2 [("email", "e@x.co")]
      "a1" "t" "s.png").2.2.2.1 (by decide),
   ((extraction_seven_keys_missing_default_empty).2.2.2 [("email", "e@x.co")]
      "a1" "t" "s.png").2.2.2.2.2.1 (by decide),
   ((extraction_seven_keys_missing_default_empty).2.2.2 [("email", "e@x.co")]
      "a1" "t" "s.png").2.2.2.2.2.2 (by decide)⟩

end CardBackend
